import Mathlib

/-!
# Verification of the EV-vs-petrol dashboard filter/aggregation core

Shallow embedding of the filtering and aggregation logic of
`streamlit_app.py`.  A dataset is an ordered list of rows (one per CSV
record); numeric columns are modelled as rationals, the year column as an
integer.  Pandas reductions that yield `NaN` on empty input (`max`, `mean`)
are modelled as `Option`-valued; `sum` over an empty column is `0`, as in
pandas.  Every definition mirrors one expression of the source file.
-/

/-- One row of the dataset (`ev_vs_petrol_dataset_v3.csv` schema). -/
structure Row where
  country : String
  region : String
  year : Int
  ev_sales : ℚ
  petrol_car_sales : ℚ
  diesel_car_sales : ℚ
  ev_market_share : ℚ
  ev_growth_rate_yoy : ℚ
  gdp_per_capita : ℚ
  charging_stations : ℚ
  avg_ev_range_km : ℚ
  co2_emissions_transport_mt : ℚ
  deriving DecidableEq, Repr

/-- Row constructor used by concrete test datasets; columns not relevant to
a given claim are passed explicitly anyway so rows stay faithful records. -/
def mkRow (c reg : String) (y : Int) (ev pet dies share growth gdp charge rng co2 : ℚ) : Row :=
  ⟨c, reg, y, ev, pet, dies, share, growth, gdp, charge, rng, co2⟩

/-- Predicate of the boolean mask at lines 39-41 of `streamlit_app.py`:
`(df['country'].isin(selected_countries)) & (df['year'] >= lo) & (df['year'] <= hi)`. -/
def rowPred (countries : List String) (lo hi : Int) (r : Row) : Bool :=
  countries.contains r.country && decide (lo ≤ r.year) && decide (r.year ≤ hi)

/-- `filtered_df = df[mask]` (lines 39-41): boolean-mask row selection,
which keeps the masked-in rows in their original order. -/
def filtered_df (df : List Row) (countries : List String) (lo hi : Int) : List Row :=
  df.filter (rowPred countries lo hi)

/-- Pandas `Series.max()` over the `year` column: `NaN` (here `none`) on an
empty series, otherwise the maximum value. -/
def listMax? : List Int → Option Int
  | [] => none
  | y :: ys =>
    some (match listMax? ys with
      | none => y
      | some m => max y m)

/-- Pandas `Series.min()` over the `year` column. -/
def listMin? : List Int → Option Int
  | [] => none
  | y :: ys =>
    some (match listMin? ys with
      | none => y
      | some m => min y m)

/-- `latest_year = filtered_df['year'].max()` (line 72). -/
def latest_year (v : List Row) : Option Int :=
  listMax? (v.map Row.year)

/-- `latest_data = filtered_df[filtered_df['year'] == latest_year]`
(line 73).  When `latest_year` is `NaN` (empty view) the equality
comparison is false on every row, so the selection is empty. -/
def latest_data (v : List Row) : List Row :=
  match latest_year v with
  | none => []
  | some y => v.filter (fun r => r.year == y)

/-- Column sum of a rational-valued column over a view: pandas
`Series.sum()`, which is `0` on an empty series. -/
def colSum (f : Row → ℚ) (v : List Row) : ℚ :=
  (v.map f).sum

theorem listMax?_le {xs : List Int} {m y : Int} (hm : listMax? xs = some m)
    (hy : y ∈ xs) : y ≤ m := by
  induction xs generalizing m with
  | nil => cases hy
  | cons a t ih =>
    simp only [listMax?, Option.some.injEq] at hm
    rcases List.mem_cons.mp hy with rfl | hyt
    · subst hm
      cases ht : listMax? t with
      | none => simp [ht]
      | some n => simp [ht]
    · cases ht : listMax? t with
      | none =>
        rcases t with _ | ⟨b, t'⟩
        · cases hyt
        · simp [listMax?] at ht
      | some n =>
        have := ih ht hyt
        subst hm
        simp only [ht]
        omega

theorem listMax?_mem {xs : List Int} {m : Int} (hm : listMax? xs = some m) : m ∈ xs := by
  induction xs generalizing m with
  | nil => simp [listMax?] at hm
  | cons a t ih =>
    simp only [listMax?, Option.some.injEq] at hm
    cases ht : listMax? t with
    | none =>
      rw [ht] at hm
      simp [← hm]
    | some n =>
      simp only [ht] at hm
      rcases max_choice a n with h | h
      · rw [h] at hm
        simp [← hm]
      · rw [h] at hm
        subst hm
        exact List.mem_cons_of_mem _ (ih ht)

theorem listMin?_le {xs : List Int} {m y : Int} (hm : listMin? xs = some m)
    (hy : y ∈ xs) : m ≤ y := by
  induction xs generalizing m with
  | nil => cases hy
  | cons a t ih =>
    simp only [listMin?, Option.some.injEq] at hm
    rcases List.mem_cons.mp hy with rfl | hyt
    · subst hm
      cases ht : listMin? t with
      | none => simp [ht]
      | some n => simp [ht]
    · cases ht : listMin? t with
      | none =>
        rcases t with _ | ⟨b, t'⟩
        · cases hyt
        · simp [listMin?] at ht
      | some n =>
        have := ih ht hyt
        subst hm
        simp only [ht]
        omega

/-! ## Sorting and group keys

Pandas `groupby(..., sort=True)` (the default, used everywhere in the app)
lists groups in ascending key order; `sort_values` orders rows by a key.
Pandas documents no tie order for `sort_values` with its default
`kind='quicksort'` (only `mergesort`/`stable` are stable), so the
executable sort below is just one admissible realization of it: the
group-key lists it produces are duplicate-free, where tie order cannot
matter, and every theorem about `sort_values` output is stated over all
key-ordered permutations of the input (`sortValuesDescSpec` below), never
about the tie order of this particular realization. -/

/-- One admissible realization of the sort (an insertion sort); which of
the tied-key orders the program produces is unspecified. -/
def sortBy {α : Type} (le : α → α → Bool) (l : List α) : List α :=
  List.insertionSort (fun a b => le a b = true) l

/-- The distinct keys of a column, in ascending order: the group index
produced by pandas `groupby` with its default `sort=True`. -/
def groupKeys {α : Type} [DecidableEq α] (le : α → α → Bool) (xs : List α) : List α :=
  sortBy le xs.dedup

/-- Boolean `≤` on years. -/
def intLe (a b : Int) : Bool := decide (a ≤ b)

/-- Boolean `≤` on country names (lexicographic, as in `sorted()` /
`groupby` on a string column). -/
def strLe (a b : String) : Bool := decide (a ≤ b)

/-- `sorted(df['country'].unique())` (sidebar, line 28): the distinct
countries of the dataset in ascending order. -/
def distinctCountries (df : List Row) : List String :=
  groupKeys strLe (df.map Row.country)

/-! ## Chart 1: sales over time -/

/-- `sales_by_year = filtered_df.groupby('year')[['ev_sales',
'petrol_car_sales']].sum().reset_index()` (line 48): one record
`(year, sum ev_sales, sum petrol_car_sales)` per distinct year of the
view, in ascending year order; years with no rows do not appear. -/
def sales_by_year (v : List Row) : List (Int × ℚ × ℚ) :=
  (groupKeys intLe (v.map Row.year)).map fun y =>
    (y, colSum Row.ev_sales (v.filter (fun r => r.year == y)),
        colSum Row.petrol_car_sales (v.filter (fun r => r.year == y)))

/-! ## Chart 2: market share by country -/

/-- Round-half-to-even at integer precision: the rounding used by pandas
`Series.round`. -/
def roundHalfEven (q : ℚ) : ℤ :=
  if q - ⌊q⌋ < 1/2 then ⌊q⌋
  else if 1/2 < q - ⌊q⌋ then ⌊q⌋ + 1
  else if ⌊q⌋ % 2 = 0 then ⌊q⌋ else ⌊q⌋ + 1

/-- `.round(2)`: round to two decimal places, half to even. -/
def round2 (q : ℚ) : ℚ :=
  (roundHalfEven (q * 100) : ℚ) / 100

/-- One row of the chart-2 frame after lines 58-60: per-country sums, their
total, and the share column.  A zero `total` makes the share division
`0/0`, an undefined value (`NaN` in pandas), modelled as `none`. -/
structure ShareRow where
  country : String
  ev_sales : ℚ
  petrol_car_sales : ℚ
  diesel_car_sales : ℚ
  total : ℚ
  ev_share : Option ℚ
  deriving DecidableEq, Repr

/-- The rows of one `groupby('country')` group. -/
def countryGroup (v : List Row) (c : String) : List Row :=
  v.filter (fun r => r.country == c)

/-- `total = ev_sales + petrol_car_sales + diesel_car_sales` of the
per-country sums (line 59: `market_share_by_country.sum(axis=1)`). -/
def countryTotal (v : List Row) (c : String) : ℚ :=
  colSum Row.ev_sales (countryGroup v c) + colSum Row.petrol_car_sales (countryGroup v c)
    + colSum Row.diesel_car_sales (countryGroup v c)

/-- One row of the chart-2 frame for country `c`: the per-country sums
(line 58), their total (line 59) and the share column (line 60:
`ev_share = (ev_sales / total * 100).round(2)`, `0/0` being `NaN`). -/
def shareRowOf (v : List Row) (c : String) : ShareRow :=
  ⟨c, colSum Row.ev_sales (countryGroup v c), colSum Row.petrol_car_sales (countryGroup v c),
   colSum Row.diesel_car_sales (countryGroup v c), countryTotal v c,
   if countryTotal v c = 0 then none
   else some (round2 (colSum Row.ev_sales (countryGroup v c) / countryTotal v c * 100))⟩

/-- Lines 58-60: the chart-2 frame before sorting, one row per distinct
country in ascending order (`groupby` default `sort=True`). -/
def shareGroups (v : List Row) : List ShareRow :=
  (groupKeys strLe (v.map Row.country)).map (shareRowOf v)

/-- Descending comparison on the `ev_share` column with the undefined value
last: `sort_values('ev_share', ascending=False)` keeps `NaN` rows at the
end (`na_position='last'`). -/
def optGe : Option ℚ → Option ℚ → Bool
  | none, none => true
  | none, some _ => false
  | some _, none => true
  | some p, some q => decide (q ≤ p)

/-- `a` sorts before (or with) `b` in the chart-2 ordering. -/
def shareGe (a b : ShareRow) : Bool := optGe a.ev_share b.ev_share

/-- What line 61's `sort_values('ev_share', ascending=False)` guarantees
of its output: a permutation of the input, ordered descending by share
with `NaN` shares last.  With the default `kind='quicksort'` the relative
order of tied shares is unspecified, so any such permutation is an
admissible program outcome. -/
def sortValuesDescSpec (input output : List ShareRow) : Prop :=
  output.Perm input ∧ output.Pairwise (fun a b => shareGe a b = true)

/-- An admissible chart-2 result: `head(15)` of some admissible
`sort_values` output of the group rows (line 61). -/
def marketShareOutcome (v : List Row) (out : List ShareRow) : Prop :=
  ∃ sorted, sortValuesDescSpec (shareGroups v) sorted ∧ out = sorted.take 15

/-- Line 61: `.reset_index().sort_values('ev_share', ascending=False).head(15)`,
computed with the insertion-sort realization; one outcome among those of
`marketShareOutcome` (tie order is not a program guarantee and is used
below only on inputs without tied shares, where all outcomes agree). -/
def market_share_by_country (v : List Row) : List ShareRow :=
  (sortBy shareGe (shareGroups v)).take 15

/-! ## Chart 3: vehicle-type distribution (latest year) -/

/-- Lines 74-77: the three-row frame `{'Vehicle Type': ..., 'Sales': ...}`
of latest-year sums per vehicle type. -/
def vehicle_dist (v : List Row) : List (String × ℚ) :=
  [("EV", colSum Row.ev_sales (latest_data v)),
   ("Petrol", colSum Row.petrol_car_sales (latest_data v)),
   ("Diesel", colSum Row.diesel_car_sales (latest_data v))]

/-! ## Chart 6: GDP vs market share (latest year, deduplicated) -/

/-- `drop_duplicates('country')` with the default `keep='first'`: keep the
first row of each country, drop later ones. -/
def dropDupCountryAux (seen : List String) : List Row → List Row
  | [] => []
  | r :: rs =>
    if seen.contains r.country then dropDupCountryAux seen rs
    else r :: dropDupCountryAux (r.country :: seen) rs

/-- Line 112: `gdp_ev_data = filtered_df[filtered_df['year'] ==
latest_year].drop_duplicates('country')`. -/
def gdp_ev_data (v : List Row) : List Row :=
  dropDupCountryAux []
    (match latest_year v with
     | none => []
     | some y => v.filter (fun r => r.year == y))

/-- Line 113: the added column `ev_market_share_pct = ev_market_share * 100`. -/
def ev_market_share_pct (r : Row) : ℚ := r.ev_market_share * 100

/-! ## Chart 9: range distribution (latest year) -/

/-- Line 154: `range_data = filtered_df[filtered_df['year'] ==
latest_year]` — the same restriction as line 73, on the same
`latest_year` variable. -/
def range_data (v : List Row) : List Row :=
  match latest_year v with
  | none => []
  | some y => v.filter (fun r => r.year == y)

/-! ## Chart 10: market-share heatmap -/

/-- Ascending lexicographic order on `(country, year)` group keys. -/
def pairLe (a b : String × Int) : Bool :=
  if a.1 = b.1 then decide (a.2 ≤ b.2) else decide (a.1 ≤ b.1)

/-- Mean of `ev_market_share` over the `(country, year)` group. -/
def groupMeanShare (v : List Row) (c : String) (y : Int) : ℚ :=
  let g := v.filter (fun r => r.country == c && r.year == y)
  colSum Row.ev_market_share g / g.length

/-- Line 165: `heatmap_data = filtered_df.groupby(['country',
'year'])['ev_market_share'].mean().reset_index()`. -/
def heatmap_data (v : List Row) : List (String × Int × ℚ) :=
  (groupKeys pairLe (v.map fun r => (r.country, r.year))).map
    fun p => (p.1, p.2, groupMeanShare v p.1 p.2)

/-- Line 166: `heatmap_pivot = heatmap_data.pivot(index='country',
columns='year', values='ev_market_share')` — a cell with no `(country,
year)` group is `NaN` (blank), modelled as `none`. -/
def heatmap_pivot (v : List Row) (c : String) (y : Int) : Option ℚ :=
  ((heatmap_data v).find? (fun t => t.1 == c && t.2.1 == y)).map (fun t => t.2.2)

/-- Line 169: `z=heatmap_pivot.values * 100` — the rendered cell, as a
percentage; blank cells stay blank. -/
def heatmap_cell_pct (v : List Row) (c : String) (y : Int) : Option ℚ :=
  (heatmap_pivot v c y).map (· * 100)

/-! ## Summary metrics (lines 190-204) -/

/-- Line 191: `total_ev = filtered_df['ev_sales'].sum()` — `0` on an empty
view (pandas empty-sum convention). -/
def total_ev (v : List Row) : ℚ := colSum Row.ev_sales v

/-- Line 195: `total_petrol = filtered_df['petrol_car_sales'].sum()`. -/
def total_petrol (v : List Row) : ℚ := colSum Row.petrol_car_sales v

/-- Line 199: `avg_ev_share = filtered_df['ev_market_share'].mean() * 100`
— `NaN` (here `none`) on an empty view. -/
def avg_ev_share (v : List Row) : Option ℚ :=
  if v.length = 0 then none
  else some (colSum Row.ev_market_share v / v.length * 100)

/-- Pandas `Series.max()` on a rational column: `NaN` on empty input. -/
def qMax? : List ℚ → Option ℚ
  | [] => none
  | x :: xs =>
    some (match qMax? xs with
      | none => x
      | some m => max x m)

/-- Line 203: `total_charging = filtered_df['charging_stations'].max()` —
`NaN` (here `none`) on an empty view. -/
def total_charging (v : List Row) : Option ℚ :=
  qMax? (v.map Row.charging_stations)

/-! ## Lemmas about the sorting and grouping helpers -/

theorem sortBy_perm {α : Type} (le : α → α → Bool) (l : List α) :
    (sortBy le l).Perm l :=
  List.perm_insertionSort _ l

theorem mem_sortBy {α : Type} {le : α → α → Bool} {l : List α} {x : α} :
    x ∈ sortBy le l ↔ x ∈ l :=
  (sortBy_perm le l).mem_iff

theorem sortBy_nodup {α : Type} {le : α → α → Bool} {l : List α} (h : l.Nodup) :
    (sortBy le l).Nodup :=
  (sortBy_perm le l).nodup_iff.mpr h

theorem mem_groupKeys {α : Type} [DecidableEq α] {le : α → α → Bool} {xs : List α} {x : α} :
    x ∈ groupKeys le xs ↔ x ∈ xs := by
  unfold groupKeys
  rw [mem_sortBy, List.mem_dedup]

theorem groupKeys_nodup {α : Type} [DecidableEq α] (le : α → α → Bool) (xs : List α) :
    (groupKeys le xs).Nodup :=
  sortBy_nodup (List.nodup_dedup xs)

theorem colSum_nil (f : Row → ℚ) : colSum f [] = 0 := rfl

theorem colSum_cons (f : Row → ℚ) (r : Row) (v : List Row) :
    colSum f (r :: v) = f r + colSum f v := by
  simp [colSum]

theorem colSum_nonneg {f : Row → ℚ} {v : List Row} (h : ∀ r ∈ v, 0 ≤ f r) :
    0 ≤ colSum f v := by
  refine List.sum_nonneg ?_
  intro x hx
  rcases List.mem_map.mp hx with ⟨r, hr, rfl⟩
  exact h r hr

theorem colSum_filter_split (p : Row → Bool) (f : Row → ℚ) (v : List Row) :
    colSum f (v.filter p) + colSum f (v.filter fun r => !p r) = colSum f v := by
  induction v with
  | nil => simp [colSum]
  | cons r rs ih =>
    cases h : p r with
    | true =>
      simp only [List.filter_cons, h, if_pos, Bool.not_true, if_neg, colSum_cons,
        Bool.false_eq_true, ite_false, ite_true]
      linarith [ih]
    | false =>
      simp only [List.filter_cons, h, Bool.not_false, colSum_cons,
        Bool.false_eq_true, ite_false, ite_true]
      linarith [ih]

theorem colSum_groupby_partition (f : Row → ℚ) :
    ∀ (keys : List Int) (v : List Row), keys.Nodup → (∀ r ∈ v, r.year ∈ keys) →
      ((keys.map fun y => colSum f (v.filter fun r => r.year == y)).sum) = colSum f v := by
  intro keys
  induction keys with
  | nil =>
    intro v _ hv
    have hv0 : v = [] := by
      cases v with
      | nil => rfl
      | cons a t => exact absurd (hv a (by simp)) (List.not_mem_nil _)
    simp [hv0, colSum]
  | cons k ks ih =>
    intro v hnd hv
    have hk : k ∉ ks := (List.nodup_cons.mp hnd).1
    have hks : ks.Nodup := (List.nodup_cons.mp hnd).2
    have hmap : ∀ y ∈ ks,
        colSum f (v.filter fun r => r.year == y)
          = colSum f ((v.filter fun r => !(r.year == k)).filter fun r => r.year == y) := by
      intro y hy
      rw [List.filter_filter]
      congr 1
      apply List.filter_congr
      intro r _
      by_cases hr : r.year = y
      · have hyk : y ≠ k := fun h => hk (h ▸ hy)
        simp [hr, hyk]
      · simp [hr]
    have hsub : ∀ r ∈ v.filter fun r => !(r.year == k), r.year ∈ ks := by
      intro r hr
      rcases List.mem_filter.mp hr with ⟨hrv, hrk⟩
      have := hv r hrv
      rcases List.mem_cons.mp this with h | h
      · exfalso
        simp [h] at hrk
      · exact h
    calc ((k :: ks).map fun y => colSum f (v.filter fun r => r.year == y)).sum
        = colSum f (v.filter fun r => r.year == k)
            + ((ks.map fun y => colSum f (v.filter fun r => r.year == y)).sum) := by
          simp
      _ = colSum f (v.filter fun r => r.year == k)
            + ((ks.map fun y =>
                colSum f ((v.filter fun r => !(r.year == k)).filter fun r => r.year == y)).sum) := by
          rw [List.map_congr_left hmap]
      _ = colSum f (v.filter fun r => r.year == k)
            + colSum f (v.filter fun r => !(r.year == k)) := by
          rw [ih _ hks hsub]
      _ = colSum f v := colSum_filter_split _ f v

/-! ## Lemmas about the chart-2 ordering -/

theorem optGe_total (a b : Option ℚ) : optGe a b = true ∨ optGe b a = true := by
  cases a with
  | none => cases b <;> simp [optGe]
  | some p =>
    cases b with
    | none => simp [optGe]
    | some q =>
      rcases le_total p q with h | h
      · right
        simpa [optGe] using h
      · left
        simpa [optGe] using h

theorem optGe_trans {a b c : Option ℚ} (hab : optGe a b = true) (hbc : optGe b c = true) :
    optGe a c = true := by
  cases a with
  | none =>
    cases b with
    | none => exact hbc
    | some q => simp [optGe] at hab
  | some p =>
    cases c with
    | none => simp [optGe]
    | some s =>
      cases b with
      | none => simp [optGe] at hbc
      | some q =>
        simp only [optGe, decide_eq_true_eq] at hab hbc ⊢
        exact le_trans hbc hab

theorem shareGe_total (a b : ShareRow) : shareGe a b = true ∨ shareGe b a = true :=
  optGe_total _ _

theorem shareGe_trans {a b c : ShareRow} (hab : shareGe a b = true)
    (hbc : shareGe b c = true) : shareGe a c = true :=
  optGe_trans hab hbc

/-- The executable realization satisfies the `sort_values` contract of
line 61: it is a share-descending (`NaN`-last) permutation of the group
rows, so `market_share_by_country` is one admissible chart-2 outcome. -/
theorem market_share_by_country_outcome (v : List Row) :
    marketShareOutcome v (market_share_by_country v) := by
  refine ⟨sortBy shareGe (shareGroups v), ⟨sortBy_perm _ _, ?_⟩, rfl⟩
  haveI : IsTotal ShareRow (fun a b => shareGe a b = true) := ⟨shareGe_total⟩
  haveI : IsTrans ShareRow (fun a b => shareGe a b = true) := ⟨fun _ _ _ => shareGe_trans⟩
  exact List.sorted_insertionSort _ _

/-! ## Bounds for the rounded share -/

theorem roundHalfEven_nonneg {q : ℚ} (hq : 0 ≤ q) : 0 ≤ roundHalfEven q := by
  have h0 : (0 : ℤ) ≤ ⌊q⌋ := Int.floor_nonneg.mpr hq
  unfold roundHalfEven
  split_ifs <;> omega

theorem roundHalfEven_le {q : ℚ} {N : ℤ} (hq : q ≤ N) : roundHalfEven q ≤ N := by
  have h1 : ⌊q⌋ ≤ N := by
    have := Int.floor_mono hq
    rwa [Int.floor_intCast] at this
  have hplus : ¬ q - ⌊q⌋ < 1/2 → ⌊q⌋ + 1 ≤ N := by
    intro ha
    have ha' : (1 : ℚ)/2 ≤ q - ⌊q⌋ := not_lt.mp ha
    have hlt : (⌊q⌋ : ℚ) < N := by linarith
    have : ⌊q⌋ < N := by exact_mod_cast hlt
    omega
  unfold roundHalfEven
  split_ifs with ha hb hc
  · exact h1
  · exact hplus ha
  · exact h1
  · exact hplus ha

theorem round2_nonneg {q : ℚ} (hq : 0 ≤ q) : 0 ≤ round2 q := by
  unfold round2
  have : (0 : ℤ) ≤ roundHalfEven (q * 100) := roundHalfEven_nonneg (by linarith)
  have h : (0 : ℚ) ≤ (roundHalfEven (q * 100) : ℚ) := by exact_mod_cast this
  positivity

theorem round2_le_100 {q : ℚ} (hq : q ≤ 100) : round2 q ≤ 100 := by
  unfold round2
  have h1 : roundHalfEven (q * 100) ≤ (10000 : ℤ) := by
    apply roundHalfEven_le
    push_cast
    linarith
  have h2 : (roundHalfEven (q * 100) : ℚ) ≤ 10000 := by exact_mod_cast h1
  rw [div_le_iff₀ (by norm_num : (0 : ℚ) < 100)]
  linarith

/-- Every defined share of a chart-2 group row lies in `[0, 100]` when the
three sales columns are nonnegative on the view. -/
theorem shareRowOf_share_bounds {v : List Row}
    (hnn : ∀ r ∈ v, 0 ≤ r.ev_sales ∧ 0 ≤ r.petrol_car_sales ∧ 0 ≤ r.diesel_car_sales)
    (c : String) {x : ℚ} (hx : (shareRowOf v c).ev_share = some x) :
    0 ≤ x ∧ x ≤ 100 := by
  have hg : ∀ r ∈ countryGroup v c, r ∈ v := by
    intro r hr
    exact (List.mem_filter.mp hr).1
  have hev : 0 ≤ colSum Row.ev_sales (countryGroup v c) :=
    colSum_nonneg (fun r hr => (hnn r (hg r hr)).1)
  have hpet : 0 ≤ colSum Row.petrol_car_sales (countryGroup v c) :=
    colSum_nonneg (fun r hr => (hnn r (hg r hr)).2.1)
  have hdies : 0 ≤ colSum Row.diesel_car_sales (countryGroup v c) :=
    colSum_nonneg (fun r hr => (hnn r (hg r hr)).2.2)
  unfold shareRowOf at hx
  by_cases ht : countryTotal v c = 0
  · simp [ht] at hx
  · simp only [ht, ite_false, Option.some.injEq] at hx
    have htot0 : 0 ≤ countryTotal v c := by
      unfold countryTotal
      linarith
    have htpos : 0 < countryTotal v c := lt_of_le_of_ne htot0 (Ne.symm ht)
    have hle : colSum Row.ev_sales (countryGroup v c) ≤ countryTotal v c := by
      unfold countryTotal
      linarith
    have hratio0 : 0 ≤ colSum Row.ev_sales (countryGroup v c) / countryTotal v c * 100 := by
      positivity
    have hratio1 : colSum Row.ev_sales (countryGroup v c) / countryTotal v c * 100 ≤ 100 := by
      have : colSum Row.ev_sales (countryGroup v c) / countryTotal v c ≤ 1 :=
        (div_le_one htpos).mpr hle
      linarith
    subst hx
    exact ⟨round2_nonneg hratio0, round2_le_100 hratio1⟩

/-! ## Lemmas about `drop_duplicates('country')` -/

theorem dropDupCountryAux_sublist (seen : List String) (l : List Row) :
    (dropDupCountryAux seen l).Sublist l := by
  induction l generalizing seen with
  | nil => simp [dropDupCountryAux]
  | cons r rs ih =>
    rw [dropDupCountryAux]
    by_cases h : seen.contains r.country = true
    · rw [if_pos h]
      exact (ih seen).cons r
    · rw [if_neg h]
      exact (ih (r.country :: seen)).cons₂ r

theorem dropDupCountryAux_filter_of_mem (c : String) :
    ∀ (seen : List String) (l : List Row), c ∈ seen →
      (dropDupCountryAux seen l).filter (fun r => r.country == c) = [] := by
  intro seen l
  induction l generalizing seen with
  | nil => intro _; rfl
  | cons r rs ih =>
    intro hc
    rw [dropDupCountryAux]
    by_cases h : seen.contains r.country = true
    · rw [if_pos h]
      exact ih seen hc
    · rw [if_neg h]
      have hrc : (r.country == c) = false := by
        apply beq_eq_false_iff_ne.mpr
        intro he
        exact h (List.elem_eq_true_of_mem (he ▸ hc))
      rw [List.filter_cons]
      simp only [hrc, Bool.false_eq_true, ite_false]
      exact ih (r.country :: seen) (List.mem_cons_of_mem _ hc)

theorem dropDupCountryAux_filter_of_not_mem (c : String) :
    ∀ (seen : List String) (l : List Row), c ∉ seen →
      (dropDupCountryAux seen l).filter (fun r => r.country == c)
        = (l.filter (fun r => r.country == c)).take 1 := by
  intro seen l
  induction l generalizing seen with
  | nil => intro _; rfl
  | cons r rs ih =>
    intro hc
    rw [dropDupCountryAux]
    by_cases h : seen.contains r.country = true
    · rw [if_pos h]
      have hrc : (r.country == c) = false := by
        apply beq_eq_false_iff_ne.mpr
        intro he
        exact hc (he ▸ List.mem_of_elem_eq_true h)
      rw [List.filter_cons]
      simp only [hrc, Bool.false_eq_true, ite_false]
      exact ih seen hc
    · rw [if_neg h]
      by_cases hrc : r.country = c
      · rw [List.filter_cons, List.filter_cons]
        simp only [hrc, beq_self_eq_true, ite_true, List.take_succ_cons, List.take_zero]
        have h0 : (dropDupCountryAux (c :: seen) rs).filter (fun r => r.country == c) = [] :=
          dropDupCountryAux_filter_of_mem c (c :: seen) rs (List.mem_cons_self _ _)
        rw [h0]
      · have hrc' : (r.country == c) = false := beq_eq_false_iff_ne.mpr hrc
        rw [List.filter_cons, List.filter_cons]
        simp only [hrc', Bool.false_eq_true, ite_false]
        apply ih
        intro hmem
        rcases List.mem_cons.mp hmem with he | he
        · exact hrc he.symm
        · exact hc he

/-! ## Concrete datasets used by witnesses and counterexamples -/

/-- `(US, 2020, ev=100, petrol=900, diesel=0, share=0.1)` from the spec's
worked examples. -/
def rowUS2020 : Row := mkRow "US" "North America" 2020 100 900 0 (1/10) 5 65000 120 300 1500

/-- `(US, 2021, ev=300, petrol=700, diesel=0, share=0.2)` from the spec's
worked examples. -/
def rowUS2021 : Row := mkRow "US" "North America" 2021 300 700 0 (2/10) 8 67000 180 320 1450

/-- The spec's two-row example dataset. -/
def exampleRows : List Row := [rowUS2020, rowUS2021]

/-- A second-country row, for filter witnesses. -/
def rowDE2021 : Row := mkRow "DE" "Europe" 2021 50 400 50 (1/10) 4 50000 90 310 700

/-- A three-row dataset over two countries. -/
def mixedRows : List Row := [rowUS2020, rowDE2021, rowUS2021]

/-- A country whose sales columns are all zero: its share total is `0`. -/
def zeroRow : Row := mkRow "Z" "Europe" 2020 0 0 0 0 0 0 0 0 0

/-! ## Claim C1 -/

/-- C1: for every dataset, every country set and every year range with
`lo ≤ hi`, the filter returns exactly the input rows whose country is in
the set and whose year lies inclusively between the bounds: the output is
a subsequence of the input (subset, in input order), every output row
satisfies both predicates, and every input row satisfying both predicates
occurs in the output exactly as often as in the input. -/
theorem C1_filter_exact (df : List Row) (countries : List String) (lo hi : Int)
    (_h : lo ≤ hi) :
    (filtered_df df countries lo hi).Sublist df ∧
    (∀ r ∈ filtered_df df countries lo hi,
      r.country ∈ countries ∧ lo ≤ r.year ∧ r.year ≤ hi) ∧
    (∀ r : Row, r.country ∈ countries → lo ≤ r.year → r.year ≤ hi →
      (filtered_df df countries lo hi).count r = df.count r) := by
  refine ⟨List.filter_sublist df, ?_, ?_⟩
  · intro r hr
    have hp := (List.mem_filter.mp hr).2
    unfold rowPred at hp
    simp only [Bool.and_eq_true, decide_eq_true_eq] at hp
    exact ⟨List.mem_of_elem_eq_true hp.1.1, hp.1.2, hp.2⟩
  · intro r hc h1 h2
    unfold filtered_df
    apply List.count_filter
    unfold rowPred
    simp only [Bool.and_eq_true, decide_eq_true_eq]
    exact ⟨⟨List.elem_eq_true_of_mem hc, h1⟩, h2⟩

/-- Witness for C1 at a concrete three-row, two-country dataset. -/
theorem C1_filter_exact_witness :
    ((2020 : Int) ≤ 2021) ∧
    ((filtered_df mixedRows ["US"] 2020 2021).Sublist mixedRows ∧
     (∀ r ∈ filtered_df mixedRows ["US"] 2020 2021,
       r.country ∈ ["US"] ∧ 2020 ≤ r.year ∧ r.year ≤ 2021) ∧
     (∀ r : Row, r.country ∈ ["US"] → 2020 ≤ r.year → r.year ≤ 2021 →
       (filtered_df mixedRows ["US"] 2020 2021).count r = mixedRows.count r)) :=
  ⟨by decide, C1_filter_exact mixedRows ["US"] 2020 2021 (by decide)⟩

/-! ## Claim C5 -/

/-- C5: filtering with the full set of distinct countries of the dataset
and the dataset's own `[min year, max year]` range returns the dataset
unchanged — same rows in the same order. -/
theorem C5_full_filter_identity (df : List Row) (lo hi : Int)
    (hlo : listMin? (df.map Row.year) = some lo)
    (hhi : listMax? (df.map Row.year) = some hi) :
    filtered_df df (distinctCountries df) lo hi = df := by
  unfold filtered_df
  apply List.filter_eq_self.mpr
  intro r hr
  have hc : r.country ∈ distinctCountries df :=
    mem_groupKeys.mpr (List.mem_map_of_mem _ hr)
  have h1 : lo ≤ r.year := listMin?_le hlo (List.mem_map_of_mem _ hr)
  have h2 : r.year ≤ hi := listMax?_le hhi (List.mem_map_of_mem _ hr)
  unfold rowPred
  simp only [Bool.and_eq_true, decide_eq_true_eq]
  exact ⟨⟨List.elem_eq_true_of_mem hc, h1⟩, h2⟩

/-- Witness for C5 at the two-row example dataset. -/
theorem C5_full_filter_identity_witness :
    (listMin? (exampleRows.map Row.year) = some 2020 ∧
     listMax? (exampleRows.map Row.year) = some 2021) ∧
    filtered_df exampleRows (distinctCountries exampleRows) 2020 2021 = exampleRows :=
  ⟨⟨by decide, by decide⟩,
   C5_full_filter_identity exampleRows 2020 2021 (by decide) (by decide)⟩

/-! ## Claim C6 -/

/-- C6: the GDP-vs-share frame is the latest-year restriction of the view
deduplicated by country keeping first occurrences: for every country, its
rows in the output are exactly the first latest-year row of that country
(later duplicates dropped, not merged), and the output is a subsequence of
the latest-year restriction. -/
theorem C6_gdp_dedup_first (v : List Row) (c : String) :
    (gdp_ev_data v).filter (fun r => r.country == c)
      = ((latest_data v).filter (fun r => r.country == c)).take 1 ∧
    (gdp_ev_data v).Sublist (latest_data v) := by
  have hg : gdp_ev_data v = dropDupCountryAux [] (latest_data v) := rfl
  rw [hg]
  exact ⟨dropDupCountryAux_filter_of_not_mem c [] (latest_data v) (List.not_mem_nil c),
         dropDupCountryAux_sublist [] (latest_data v)⟩

/-! ## Claim C10 -/

/-- C10: the per-year sums of the chart-1 frame partition the plain column
sums: adding its `ev_sales` entries over all years gives the Total EV
Sales metric, and likewise its `petrol_car_sales` entries give the Total
Petrol Sales metric. -/
theorem C10_sales_partition (v : List Row) :
    ((sales_by_year v).map (fun t => t.2.1)).sum = total_ev v ∧
    ((sales_by_year v).map (fun t => t.2.2)).sum = total_petrol v := by
  have hnd : (groupKeys intLe (v.map Row.year)).Nodup := groupKeys_nodup _ _
  have hmem : ∀ r ∈ v, r.year ∈ groupKeys intLe (v.map Row.year) := by
    intro r hr
    exact mem_groupKeys.mpr (List.mem_map_of_mem _ hr)
  constructor
  · unfold sales_by_year total_ev
    rw [List.map_map]
    exact colSum_groupby_partition Row.ev_sales _ v hnd hmem
  · unfold sales_by_year total_petrol
    rw [List.map_map]
    exact colSum_groupby_partition Row.petrol_car_sales _ v hnd hmem

/-! ## Claim C7 -/

/-- C7: the chart-1 frame groups the view by year and sums `ev_sales` and
`petrol_car_sales` per year, omitting years with no rows; on the spec's
two-row example it is exactly `{2020: ev=100, petrol=900; 2021: ev=300,
petrol=700}`, and in general every year it lists is the year of some row
of the view. -/
theorem C7_sales_by_year_example :
    sales_by_year exampleRows = [(2020, 100, 900), (2021, 300, 700)] ∧
    (∀ (v : List Row), ∀ t ∈ sales_by_year v, ∃ r ∈ v, r.year = t.1) := by
  constructor
  · norm_num [sales_by_year, groupKeys, sortBy, List.insertionSort, List.orderedInsert,
      intLe, colSum, exampleRows, rowUS2020, rowUS2021, mkRow, List.dedup_cons_of_not_mem,
      List.filter_cons]
  · intro v t ht
    rcases List.mem_map.mp ht with ⟨y, hy, rfl⟩
    rcases List.mem_map.mp (mem_groupKeys.mp hy) with ⟨r, hr, hry⟩
    exact ⟨r, hr, hry⟩

/-! ## Claim C9 -/

/-- C9: the latest year is the single value `max(year)` of the view, and
the three latest-year-dependent aggregations all restrict on that same
value: `latest_data` (chart 3's base), `range_data` (chart 9) and
`gdp_ev_data` (chart 6) are all built from the rows whose year equals it,
and chart 3's frame sums exactly those rows. -/
theorem C9_latest_year_shared (v : List Row) (y : Int)
    (h : latest_year v = some y) :
    (∃ r ∈ v, r.year = y) ∧
    (∀ r ∈ v, r.year ≤ y) ∧
    latest_data v = v.filter (fun r => r.year == y) ∧
    range_data v = latest_data v ∧
    gdp_ev_data v = dropDupCountryAux [] (latest_data v) ∧
    vehicle_dist v
      = [("EV", colSum Row.ev_sales (v.filter (fun r => r.year == y))),
         ("Petrol", colSum Row.petrol_car_sales (v.filter (fun r => r.year == y))),
         ("Diesel", colSum Row.diesel_car_sales (v.filter (fun r => r.year == y)))] := by
  have hld : latest_data v = v.filter (fun r => r.year == y) := by
    unfold latest_data
    rw [h]
  have hmem : ∃ r ∈ v, r.year = y := by
    rcases List.mem_map.mp (listMax?_mem h) with ⟨r, hr, hry⟩
    exact ⟨r, hr, hry⟩
  have hub : ∀ r ∈ v, r.year ≤ y := fun r hr => listMax?_le h (List.mem_map_of_mem _ hr)
  refine ⟨hmem, hub, hld, rfl, rfl, ?_⟩
  unfold vehicle_dist
  rw [hld]

/-- Witness for C9 at the two-row example dataset, whose latest year is
2021. -/
theorem C9_latest_year_shared_witness :
    (latest_year exampleRows = some 2021) ∧
    ((∃ r ∈ exampleRows, r.year = 2021) ∧
     (∀ r ∈ exampleRows, r.year ≤ 2021) ∧
     latest_data exampleRows = exampleRows.filter (fun r => r.year == 2021) ∧
     range_data exampleRows = latest_data exampleRows ∧
     gdp_ev_data exampleRows = dropDupCountryAux [] (latest_data exampleRows) ∧
     vehicle_dist exampleRows
       = [("EV", colSum Row.ev_sales (exampleRows.filter (fun r => r.year == 2021))),
          ("Petrol", colSum Row.petrol_car_sales (exampleRows.filter (fun r => r.year == 2021))),
          ("Diesel", colSum Row.diesel_car_sales (exampleRows.filter (fun r => r.year == 2021)))]) :=
  ⟨by decide, C9_latest_year_shared exampleRows 2021 (by decide)⟩

/-! ## Claim C8 -/

/-- C8: the heatmap pivot averages `ev_market_share` per `(country, year)`
group, is rendered as percentages, and leaves cells with no rows blank
(`none`), not zero.  On the spec's example rows, row "US" has exactly the
cells 2020 → 10 and 2021 → 20 and no cell for any other country or year;
in general a cell is defined exactly when the view has a row for its
`(country, year)` pair. -/
theorem C8_heatmap_pivot (c : String) (y : Int) :
    (heatmap_cell_pct exampleRows c y
      = if c = "US" then
          (if y = 2020 then some 10 else if y = 2021 then some 20 else none)
        else none) ∧
    (∀ (v : List Row),
      (heatmap_pivot v c y).isSome = true ↔ ∃ r ∈ v, r.country = c ∧ r.year = y) := by
  constructor
  · have hd : heatmap_data exampleRows = [("US", 2020, 1/10), ("US", 2021, 1/5)] := by
      norm_num [heatmap_data, groupKeys, sortBy, List.insertionSort, List.orderedInsert,
        pairLe, groupMeanShare, colSum, exampleRows, rowUS2020, rowUS2021, mkRow,
        List.dedup_cons_of_not_mem, List.filter_cons]
    unfold heatmap_cell_pct heatmap_pivot
    rw [hd]
    by_cases hc : c = "US"
    · subst hc
      by_cases h20 : y = 2020
      · subst h20
        norm_num [List.find?]
      · have e20 : ((2020 : Int) == y) = false := beq_eq_false_iff_ne.mpr (fun h => h20 h.symm)
        by_cases h21 : y = 2021
        · subst h21
          norm_num [List.find?, e20]
        · have e21 : ((2021 : Int) == y) = false := beq_eq_false_iff_ne.mpr (fun h => h21 h.symm)
          simp [List.find?, e20, e21, h20, h21]
    · have h1 : ("US" == c) = false := beq_eq_false_iff_ne.mpr (fun he => hc he.symm)
      simp [List.find?, h1, hc]
  · intro v
    unfold heatmap_pivot
    rw [Option.isSome_map', List.find?_isSome]
    constructor
    · rintro ⟨t, ht, hp⟩
      rcases List.mem_map.mp ht with ⟨p, hp2, rfl⟩
      simp only [Bool.and_eq_true, beq_iff_eq] at hp
      rcases List.mem_map.mp (mem_groupKeys.mp hp2) with ⟨r, hr, hre⟩
      refine ⟨r, hr, ?_, ?_⟩
      · have h1 : r.country = p.1 := by rw [← hre]
        rw [h1, hp.1]
      · have h2 : r.year = p.2 := by rw [← hre]
        rw [h2, hp.2]
    · rintro ⟨r, hr, hc, hy⟩
      refine ⟨(c, y, groupMeanShare v c y), ?_, ?_⟩
      · subst hc
        subst hy
        exact List.mem_map_of_mem _ (mem_groupKeys.mpr (List.mem_map_of_mem _ hr))
      · simp

/-! ## Claim C2 -/

/-- C2 (what the code does at the failing input): filtering with an empty
country set yields an empty view, and nothing raises on it — the
aggregations and summary reductions silently produce values instead: the
sums are `0`, the vehicle-type frame is three zero rows, and the
`max`/`mean`-based values are `NaN` (`none`).  No `NoDataError` exists
anywhere in the source. -/
theorem C2_empty_view_silent_values :
    filtered_df mixedRows [] 2020 2021 = [] ∧
    total_ev [] = 0 ∧
    total_petrol [] = 0 ∧
    latest_year [] = none ∧
    vehicle_dist [] = [("EV", 0), ("Petrol", 0), ("Diesel", 0)] ∧
    avg_ev_share [] = none ∧
    total_charging [] = none := by
  refine ⟨by decide, rfl, rfl, rfl, ?_, ?_, rfl⟩
  · norm_num [vehicle_dist, latest_data, latest_year, listMax?, colSum]
  · simp [avg_ev_share]

/-! ## Claim C3 -/

/-- Chart-2 output on a single all-zero-sales country: the `0/0` share is
an undefined (`NaN`) value and its row is kept in the output. -/
theorem market_share_zero_total_eval :
    market_share_by_country [zeroRow] = [⟨"Z", 0, 0, 0, 0, none⟩] := by
  norm_num [market_share_by_country, sortBy, List.insertionSort, List.orderedInsert,
    shareGroups, groupKeys, shareRowOf, countryGroup, countryTotal, colSum,
    zeroRow, mkRow, List.filter_cons]

/-- C3 (what the code does at the failing input): the share division is
not guarded — for a country whose sales total is zero the code computes
`0/0`, and the resulting undefined (`NaN`) share row stays in the output
instead of being replaced by a defined fallback or excluded. -/
theorem C3_share_division_unguarded :
    countryTotal [zeroRow] "Z" = 0 ∧
    market_share_by_country [zeroRow] = [⟨"Z", 0, 0, 0, 0, none⟩] := by
  refine ⟨?_, market_share_zero_total_eval⟩
  norm_num [countryTotal, countryGroup, colSum, zeroRow, mkRow, List.filter_cons]

/-! ## Claim C4 -/

/-- A country row with a negative sales value: its group total is nonzero,
so its share is defined, but falls outside `[0, 100]`. -/
def negRow : Row := mkRow "N" "Europe" 2020 (-100) 200 0 0 0 0 0 0 0

theorem roundHalfEven_intCast (n : ℤ) : roundHalfEven (n : ℚ) = n := by
  unfold roundHalfEven
  rw [Int.floor_intCast]
  norm_num

theorem round2_intCast (n : ℤ) : round2 (n : ℚ) = (n : ℚ) := by
  unfold round2
  have h : ((n : ℚ) * 100) = ((n * 100 : ℤ) : ℚ) := by push_cast; ring
  rw [h, roundHalfEven_intCast]
  push_cast
  ring

/-- Chart-2 output on a single negative-sales country: the total is `100`,
the share is the defined value `-100`, outside `[0, 100]`. -/
theorem market_share_neg_sales_eval :
    market_share_by_country [negRow] = [⟨"N", -100, 200, 0, 100, some (-100)⟩] := by
  have h100 : round2 (-100 : ℚ) = -100 := by
    have h := round2_intCast (-100)
    push_cast at h
    exact h
  norm_num [market_share_by_country, sortBy, List.insertionSort, List.orderedInsert,
    shareGroups, groupKeys, shareRowOf, countryGroup, countryTotal, colSum,
    negRow, mkRow, List.filter_cons, h100]

/-- C4 as stated is false in two ways: on the one-row all-zero-sales view
the single entry's share is undefined (`NaN`), not a value in `[0, 100]`,
and on the one-row negative-sales view the single entry's share is the
defined value `-100`, outside `[0, 100]`. -/
theorem C4_share_range_counterexample :
    (∃ s ∈ market_share_by_country [zeroRow], s.ev_share = none) ∧
    (∃ s ∈ market_share_by_country [negRow], s.ev_share = some (-100)) := by
  constructor
  · refine ⟨⟨"Z", 0, 0, 0, 0, none⟩, ?_, rfl⟩
    rw [market_share_zero_total_eval]
    exact List.mem_singleton_self _
  · refine ⟨⟨"N", -100, 200, 0, 100, some (-100)⟩, ?_, rfl⟩
    rw [market_share_neg_sales_eval]
    exact List.mem_singleton_self _

/-- C4 (amended): of the chart-2 table the program guarantees what
`sort_values(kind='quicksort').head(15)` guarantees — every admissible
outcome (the 15-entry head of some share-descending permutation of the
per-country group rows, tie order unspecified) has at most 15 entries,
each entry is one of the group rows, and the entries are ordered
descending by share with undefined (`NaN`) shares, which zero-total
groups produce, sorted last; when the view's sales columns are
nonnegative, every defined share value lies in `[0, 100]`. -/
theorem C4_market_share_table_amended (v : List Row) (out : List ShareRow)
    (hout : marketShareOutcome v out)
    (hnn : ∀ r ∈ v, 0 ≤ r.ev_sales ∧ 0 ≤ r.petrol_car_sales ∧ 0 ≤ r.diesel_car_sales) :
    out.length ≤ 15 ∧
    (∀ s ∈ out, s ∈ shareGroups v) ∧
    out.Pairwise (fun a b => shareGe a b = true) ∧
    (∀ s ∈ out, ∀ x, s.ev_share = some x → 0 ≤ x ∧ x ≤ 100) := by
  unfold marketShareOutcome sortValuesDescSpec at hout
  rcases hout with ⟨sorted, ⟨hperm, hpair⟩, rfl⟩
  have hmem : ∀ s ∈ sorted.take 15, s ∈ shareGroups v := fun s hs =>
    hperm.mem_iff.mp (List.Sublist.mem hs (List.take_sublist _ _))
  refine ⟨List.length_take_le _ _, hmem,
    List.Pairwise.sublist (List.take_sublist _ _) hpair, ?_⟩
  intro s hs x hx
  rcases List.mem_map.mp (hmem s hs) with ⟨c, _, rfl⟩
  exact shareRowOf_share_bounds hnn c hx

/-- Witness for the amended C4: the insertion-sort outcome at the
three-row, two-country dataset. -/
theorem C4_market_share_table_amended_witness :
    marketShareOutcome mixedRows (market_share_by_country mixedRows) ∧
    (∀ r ∈ mixedRows, 0 ≤ r.ev_sales ∧ 0 ≤ r.petrol_car_sales ∧ 0 ≤ r.diesel_car_sales) ∧
    ((market_share_by_country mixedRows).length ≤ 15 ∧
     (∀ s ∈ market_share_by_country mixedRows, s ∈ shareGroups mixedRows) ∧
     (market_share_by_country mixedRows).Pairwise (fun a b => shareGe a b = true) ∧
     (∀ s ∈ market_share_by_country mixedRows, ∀ x, s.ev_share = some x → 0 ≤ x ∧ x ≤ 100)) :=
  ⟨market_share_by_country_outcome mixedRows, by decide,
   C4_market_share_table_amended mixedRows (market_share_by_country mixedRows)
     (market_share_by_country_outcome mixedRows) (by decide)⟩
